import Mathlib

/-!
Verification of the resilience and credential core of the ticketing-system
repository (api-gateway circuit breaker and failure classification,
auth-service token-validation cache, register/login use cases, email value
object), as a shallow embedding in Lean.

Conventions of the embedding:
* Rust machine integers are modelled as `Nat`; overflow is applied with an
  explicit `% 2 ^ 32` exactly where the source performs a wrapping
  operation (`AtomicU32::fetch_add`).  `u64::saturating_sub` is `Nat.sub`.
* The system clock is passed explicitly: operations of the circuit breaker
  that read `SystemTime::now()` take a `now_ms` argument (milliseconds
  since the UNIX epoch, the unit the source converts to).
* `std::time::Duration` values are modelled by their length in
  nanoseconds; the source compares `Duration::from_millis(elapsed)` with
  `recovery_timeout`, which is `elapsed * 1000000 ≥ recovery_timeout_ns`.
* Fallible Rust functions returning `Result<T, E>` become
  `Except E T`-valued Lean functions.  Trait objects (repository, hasher,
  token service) become explicit function arguments.
-/

namespace TicketingSystem

/-- State of `CircuitBreaker` from
`services/api-gateway/src/circuit_breaker.rs`: the `Inner` struct holds a
`failure_count : AtomicU32`, an `is_open : AtomicBool`, a
`last_failure_ms : AtomicU64` (milliseconds since the UNIX epoch of the
last recorded failure), the immutable `threshold : u32` and the immutable
`recovery_timeout : Duration` (kept here in nanoseconds). -/
structure CircuitBreaker where
  failure_count : Nat
  is_open : Bool
  last_failure_ms : Nat
  threshold : Nat
  recovery_timeout_ns : Nat
deriving DecidableEq

/-- `CircuitBreaker::new(threshold, recovery_timeout)`. -/
def CircuitBreaker.new (threshold : Nat) (recovery_timeout_ns : Nat) : CircuitBreaker :=
  { failure_count := 0
    is_open := false
    last_failure_ms := 0
    threshold := threshold
    recovery_timeout_ns := recovery_timeout_ns }

/-- `CircuitBreaker::is_available(&self)`: returns `true` if the circuit is
not open; otherwise compares the elapsed time since the last failure
(`now_ms.saturating_sub(last_ms)`, converted from milliseconds to a
`Duration`) against the recovery timeout. -/
def CircuitBreaker.is_available (cb : CircuitBreaker) (now_ms : Nat) : Bool :=
  if !cb.is_open then
    true
  else
    decide (cb.recovery_timeout_ns ≤ (now_ms - cb.last_failure_ms) * 1000000)

/-- `CircuitBreaker::record_success(&self)`: stores `0` into the failure
counter and `false` into the open flag. -/
def CircuitBreaker.record_success (cb : CircuitBreaker) : CircuitBreaker :=
  { cb with failure_count := 0, is_open := false }

/-- `CircuitBreaker::record_failure(&self)`: `fetch_add(1)` on the `u32`
counter (wrapping, hence the `% 2 ^ 32`), and if the new count reaches the
threshold, stores `true` into the open flag and the current time into
`last_failure_ms`. -/
def CircuitBreaker.record_failure (cb : CircuitBreaker) (now_ms : Nat) : CircuitBreaker :=
  if cb.threshold ≤ (cb.failure_count + 1) % 2 ^ 32 then
    { cb with failure_count := (cb.failure_count + 1) % 2 ^ 32, is_open := true,
              last_failure_ms := now_ms }
  else
    { cb with failure_count := (cb.failure_count + 1) % 2 ^ 32 }

/-- Computation rule for `record_failure` on an explicit state. -/
theorem record_failure_mk (fc : Nat) (op : Bool) (last t w now : Nat) :
    (CircuitBreaker.mk fc op last t w).record_failure now =
      if t ≤ (fc + 1) % 2 ^ 32 then
        CircuitBreaker.mk ((fc + 1) % 2 ^ 32) true now t w
      else
        CircuitBreaker.mk ((fc + 1) % 2 ^ 32) op last t w :=
  rfl

/-- A sequence of `record_failure` calls at the given timestamps. -/
def recordFailures (ts : List Nat) (cb : CircuitBreaker) : CircuitBreaker :=
  ts.foldl (fun c t => c.record_failure t) cb

/-- While the failure count stays strictly below the threshold, a run of
`record_failure` calls only increments the counter: the open flag, the
timestamp and the configuration are untouched. -/
theorem recordFailures_below_threshold (ts : List Nat) (cb : CircuitBreaker)
    (hth : cb.threshold ≤ 2 ^ 32)
    (hlt : cb.failure_count + ts.length < cb.threshold) :
    recordFailures ts cb = { cb with failure_count := cb.failure_count + ts.length } := by
  induction ts generalizing cb with
  | nil =>
    simp [recordFailures]
  | cons x xs ih =>
    have hlen : cb.failure_count + (xs.length + 1) < cb.threshold := by
      simpa [List.length_cons] using hlt
    have hfc1 : cb.failure_count + 1 < 2 ^ 32 := by omega
    have hmod : (cb.failure_count + 1) % 2 ^ 32 = cb.failure_count + 1 :=
      Nat.mod_eq_of_lt hfc1
    have hstep : cb.record_failure x = { cb with failure_count := cb.failure_count + 1 } := by
      rw [CircuitBreaker.record_failure, hmod, if_neg (by omega)]
    have ih' := ih { cb with failure_count := cb.failure_count + 1 }
      (by simpa using hth) (by simp; omega)
    have hrec : recordFailures (x :: xs) cb =
        recordFailures xs { cb with failure_count := cb.failure_count + 1 } := by
      rw [recordFailures, List.foldl_cons, hstep]
      rfl
    rw [hrec, ih']
    simp [List.length_cons]
    omega

/-- C1: with threshold `t ≥ 1` (a `u32`, so `t < 2 ^ 32`) and recovery
window `w`, starting from the initial closed state: (1) after fewer than
`t` consecutive failures `is_available` is still `true`; (2) the `t`-th
consecutive failure, at time `l`, leaves the breaker exactly in the open
state with count `t` and `last_failure_ms = l`; (3) in that open state
`is_available now` is `true` iff `now - l` (as a duration) has reached the
window `w`; (4) in particular with `w = 0`, `is_available` is `true`
immediately after the tripping failure. -/
theorem circuit_breaker_threshold_and_recovery (t w now : Nat)
    (ht : 1 ≤ t) (ht32 : t < 2 ^ 32) :
    (∀ ts : List Nat, ts.length < t →
        (recordFailures ts (CircuitBreaker.new t w)).is_available now = true)
    ∧ (∀ (pre : List Nat) (l : Nat), pre.length + 1 = t →
        recordFailures (pre ++ [l]) (CircuitBreaker.new t w) =
          CircuitBreaker.mk t true l t w)
    ∧ (∀ l : Nat,
        (CircuitBreaker.mk t true l t w).is_available now = true ↔ w ≤ (now - l) * 1000000)
    ∧ (w = 0 → ∀ l : Nat, (CircuitBreaker.mk t true l t w).is_available now = true) := by
  refine ⟨?_, ?_, ?_, ?_⟩
  · intro ts hts
    have h := recordFailures_below_threshold ts (CircuitBreaker.new t w)
      (by simp [CircuitBreaker.new]; omega) (by simp [CircuitBreaker.new]; omega)
    rw [h]
    simp [CircuitBreaker.is_available, CircuitBreaker.new]
  · intro pre l hpre
    have h := recordFailures_below_threshold pre (CircuitBreaker.new t w)
      (by simp [CircuitBreaker.new]; omega) (by simp [CircuitBreaker.new]; omega)
    have hsplit : recordFailures (pre ++ [l]) (CircuitBreaker.new t w) =
        (recordFailures pre (CircuitBreaker.new t w)).record_failure l := by
      simp [recordFailures, List.foldl_append]
    rw [hsplit, h]
    have hX : ({ CircuitBreaker.new t w with
        failure_count := (CircuitBreaker.new t w).failure_count + pre.length } :
          CircuitBreaker) = CircuitBreaker.mk pre.length false 0 t w := by
      simp [CircuitBreaker.new]
    rw [hX, record_failure_mk]
    have hmod : (pre.length + 1) % 2 ^ 32 = pre.length + 1 :=
      Nat.mod_eq_of_lt (by omega)
    rw [hmod, if_pos (by omega)]
    rw [show pre.length + 1 = t from hpre]
  · intro l
    simp [CircuitBreaker.is_available]
  · intro hw l
    simp [CircuitBreaker.is_available, hw]

/-- Witness for C1 at `t = 2`, `w = 0`: two failures (at times 3 and 5)
trip the breaker and, with a zero window, it is available again at once. -/
theorem circuit_breaker_threshold_and_recovery_witness :
    recordFailures ([3] ++ [5]) (CircuitBreaker.new 2 0) = CircuitBreaker.mk 2 true 5 2 0
    ∧ (CircuitBreaker.mk 2 true 5 2 0).is_available 5 = true := by
  have h := circuit_breaker_threshold_and_recovery 2 0 5 (by decide) (by decide)
  exact ⟨h.2.1 [3] 5 (by decide), h.2.2.2 rfl 5⟩

/-- C6: `record_success` unconditionally resets the failure count to 0 and
the open flag to `false`, after which `is_available` is `true` at any
time; configuration and timestamp fields are untouched. -/
theorem record_success_closes_circuit (cb : CircuitBreaker) (now : Nat) :
    cb.record_success.failure_count = 0
    ∧ cb.record_success.is_open = false
    ∧ cb.record_success.is_available now = true
    ∧ cb.record_success.threshold = cb.threshold
    ∧ cb.record_success.recovery_timeout_ns = cb.recovery_timeout_ns := by
  refine ⟨rfl, rfl, ?_, rfl, rfl⟩
  simp [CircuitBreaker.is_available, CircuitBreaker.record_success]

/-- C3 counterexample: threshold 1, window 10^9 ns; a failure at time 0
trips the breaker (`last_failure_ms = 0`); a further failure while open,
at time 5, moves `last_failure_ms` to 5 — it is not left unchanged as the
claim states. -/
theorem record_failure_while_open_counterexample :
    ¬ ((((CircuitBreaker.new 1 1000000000).record_failure 0).record_failure 5).last_failure_ms
        = (((CircuitBreaker.new 1 1000000000).record_failure 0)).last_failure_ms) := by
  decide

/-- C3 amended: once the (un-wrapped) failure count has reached the
threshold — in particular on every further failure while the circuit is
open — each `record_failure` at time `now` re-records
`last_failure_ms := now`, so a flood of failures while open extends the
cool-down window from the most recent failure. -/
theorem record_failure_while_open_moves_timestamp (cb : CircuitBreaker) (now : Nat)
    (_hopen : cb.is_open = true)
    (hcount : cb.threshold ≤ cb.failure_count)
    (hwrap : cb.failure_count + 1 < 2 ^ 32) :
    (cb.record_failure now).last_failure_ms = now
    ∧ (cb.record_failure now).is_open = true := by
  have hmod : (cb.failure_count + 1) % 2 ^ 32 = cb.failure_count + 1 :=
    Nat.mod_eq_of_lt hwrap
  rw [CircuitBreaker.record_failure, hmod, if_pos (by omega)]
  exact ⟨rfl, rfl⟩

/-- Witness for the amended C3: an open breaker with threshold 1 and count
1 that fails again at time 7 has its timestamp moved to 7. -/
theorem record_failure_while_open_moves_timestamp_witness :
    ((CircuitBreaker.mk 1 true 0 1 1000000000).record_failure 7).last_failure_ms = 7 :=
  (record_failure_while_open_moves_timestamp (CircuitBreaker.mk 1 true 0 1 1000000000) 7
    rfl (by decide) (by decide)).1

/-! ## Gateway resolvers: outcome classification feeding the breaker

The GraphQL resolvers `QueryRoot::me`, `MutationRoot::register` and
`MutationRoot::login` in `services/api-gateway/src/schema.rs` all end in
the same `match` on the gRPC call result: on `Ok` they call
`cb.record_success()`; on `Err(status)` they call `cb.record_failure()`
exactly when `status.code()` is `Unavailable`, `DeadlineExceeded` or
`Internal`, and otherwise touch the breaker not at all. -/

/-- The variants of `tonic::Code`. -/
inductive GrpcCode
  | ok
  | cancelled
  | unknown
  | invalidArgument
  | deadlineExceeded
  | notFound
  | alreadyExists
  | permissionDenied
  | resourceExhausted
  | failedPrecondition
  | aborted
  | outOfRange
  | unimplemented
  | internal
  | unavailable
  | dataLoss
  | unauthenticated
deriving DecidableEq

/-- The `matches!(status.code(), Unavailable | DeadlineExceeded | Internal)`
guard of the resolvers' error arm. -/
def isTransientCode : GrpcCode → Bool
  | .unavailable => true
  | .deadlineExceeded => true
  | .internal => true
  | _ => false

/-- Which breaker methods a resolver invokes. -/
inductive BreakerCall
  | success
  | failure
deriving DecidableEq

/-- The sequence of breaker-method invocations the resolvers' final
`match` performs for a given downstream outcome (`Ok` response or
`Err(status)`). -/
def gatewayBreakerCalls {α : Type} : Except GrpcCode α → List BreakerCall
  | .ok _ => [.success]
  | .error c => if isTransientCode c then [.failure] else []

/-- The resolvers' final `match`, as the state transformation it applies
to the shared breaker. -/
def gatewayUpdateBreaker {α : Type} (cb : CircuitBreaker) (now : Nat) :
    Except GrpcCode α → CircuitBreaker
  | .ok _ => cb.record_success
  | .error c => if isTransientCode c then cb.record_failure now else cb

/-- C2: on the resilient call path, an error with code `Unavailable`,
`DeadlineExceeded` or `Internal` causes exactly one `record_failure` and
no `record_success`; an error with a business-rejection code
(`InvalidArgument`, `NotFound`, `AlreadyExists`, `PermissionDenied`,
`Unauthenticated`) causes neither; a success always causes
`record_success`. -/
theorem gateway_outcome_breaker_feed {α : Type} (cb : CircuitBreaker) (now : Nat) :
    (∀ c : GrpcCode,
      c = .unavailable ∨ c = .deadlineExceeded ∨ c = .internal →
        gatewayBreakerCalls (α := α) (.error c) = [.failure]
        ∧ gatewayUpdateBreaker (α := α) cb now (.error c) = cb.record_failure now)
    ∧ (∀ c : GrpcCode,
      c = .invalidArgument ∨ c = .notFound ∨ c = .alreadyExists
          ∨ c = .permissionDenied ∨ c = .unauthenticated →
        gatewayBreakerCalls (α := α) (.error c) = []
        ∧ gatewayUpdateBreaker (α := α) cb now (.error c) = cb)
    ∧ (∀ v : α,
        gatewayBreakerCalls (.ok v) = [.success]
        ∧ gatewayUpdateBreaker cb now (.ok v) = cb.record_success) := by
  refine ⟨?_, ?_, ?_⟩
  · rintro c (rfl | rfl | rfl) <;> exact ⟨rfl, rfl⟩
  · rintro c (rfl | rfl | rfl | rfl | rfl) <;> exact ⟨rfl, rfl⟩
  · intro v
    exact ⟨rfl, rfl⟩

/-- Witness for C2 at code `Unavailable`. -/
theorem gateway_outcome_breaker_feed_witness :
    gatewayBreakerCalls (α := Unit) (.error .unavailable) = [.failure] :=
  ((gateway_outcome_breaker_feed (α := Unit) (CircuitBreaker.new 1 0) 0).1
    .unavailable (Or.inl rfl)).1

/-- C4 counterexample: an error with code `Aborted` — outside the
enumerated set — leads to no breaker invocation at all: the resolvers do
not classify it as a transient failure, and `record_failure` is not
invoked (the claim says it would be). -/
theorem gateway_unlisted_code_counterexample :
    gatewayBreakerCalls (α := Unit) (.error .aborted) = []
    ∧ ¬ gatewayBreakerCalls (α := Unit) (.error .aborted) = [BreakerCall.failure]
    ∧ gatewayUpdateBreaker (α := Unit) (CircuitBreaker.new 1 0) 0 (.error .aborted)
        = CircuitBreaker.new 1 0 := by
  exact ⟨rfl, by decide, rfl⟩

/-- C4 amended: an error whose code lies outside the enumerated set —
`Unknown`, `Aborted`, `ResourceExhausted`, `Cancelled`,
`FailedPrecondition`, `OutOfRange`, `Unimplemented`, `DataLoss` or `Ok` —
causes neither `record_failure` nor `record_success`: only `Unavailable`,
`DeadlineExceeded` and `Internal` feed the breaker's failure side. -/
theorem gateway_unlisted_code_records_nothing {α : Type} (cb : CircuitBreaker) (now : Nat)
    (c : GrpcCode) (hc : isTransientCode c = false) :
    gatewayBreakerCalls (α := α) (.error c) = []
    ∧ gatewayUpdateBreaker (α := α) cb now (.error c) = cb := by
  constructor
  · simp [gatewayBreakerCalls, hc]
  · simp [gatewayUpdateBreaker, hc]

/-- Witness for the amended C4 at code `ResourceExhausted`. -/
theorem gateway_unlisted_code_records_nothing_witness :
    gatewayBreakerCalls (α := Unit) (.error .resourceExhausted) = [] :=
  (gateway_unlisted_code_records_nothing (α := Unit) (CircuitBreaker.new 1 0) 0
    .resourceExhausted rfl).1

/-! ## Auth-service domain errors and token data -/

/-- `AuthError` from `services/auth-service/src/domain/error.rs`. -/
inductive AuthError
  | userAlreadyExists
  | userNotFound
  | invalidCredentials
  | invalidToken
  | tokenExpired
  | invalidEmail
  | weakPassword
  | accountInactive
  | internal (msg : String)
deriving DecidableEq

/-- `TokenData` from `services/auth-service/src/domain/auth.rs` (the
`Uuid` subject identifier is modelled as a `Nat`). -/
structure TokenData where
  user_id : Nat
  email : String
deriving DecidableEq

/-! ## Cached token validation

`CachedTokenService` in
`services/auth-service/src/infrastructure/cache/token_cache.rs` wraps a
`TokenService` with a moka TTL cache keyed by the raw token string.  The
moka cache (an external library) is modelled as a keyed store with the
insertion timestamp recorded per entry: `get` returns an entry only while
its age is below the TTL, `insert` replaces the entry for the key (last
write wins).  Capacity eviction is not modelled.  The wrapped service is
an explicit function argument, and `validate_token` additionally returns
the number of invocations of the wrapped service (0 or 1), so that
"without a second downstream invocation" is stated directly. -/

/-- Token-validation cache state: configured TTL (milliseconds) and the
entries `(token, claims, insertion time)`. -/
structure MokaCache where
  ttl_ms : Nat
  entries : List (String × TokenData × Nat)
deriving DecidableEq

/-- Look up a token: an entry is returned only while the elapsed time
since insertion is below the TTL. -/
def MokaCache.get (c : MokaCache) (k : String) (now : Nat) : Option TokenData :=
  match c.entries.find? (fun e => e.1 == k) with
  | some (_, v, ins) => if now - ins < c.ttl_ms then some v else none
  | none => none

/-- Insert a validation result keyed by the raw token string (replacing
any previous entry for that key). -/
def MokaCache.insert (c : MokaCache) (k : String) (v : TokenData) (now : Nat) : MokaCache :=
  { c with entries := (k, v, now) :: c.entries.filter (fun e => ¬ e.1 == k) }

/-- `CachedTokenService::validate_token`: check the cache first and return
the stored claims on a hit; on a miss invoke the wrapped service, and on
its success insert the result and return it, on its failure propagate the
error without inserting.  The third component counts invocations of the
wrapped service. -/
def validate_token (inner : String → Except AuthError TokenData)
    (c : MokaCache) (token : String) (now : Nat) :
    Except AuthError TokenData × MokaCache × Nat :=
  match c.get token now with
  | some data => (.ok data, c, 0)
  | none =>
    match inner token with
    | .error e => (.error e, c, 1)
    | .ok data => (.ok data, c.insert token data now, 1)

/-- A token absent (or expired) at time `now` is still absent at any later
time: entries only age. -/
theorem MokaCache.get_none_mono (c : MokaCache) (k : String) (now now' : Nat)
    (h : c.get k now = none) (hle : now ≤ now') : c.get k now' = none := by
  unfold MokaCache.get at h ⊢
  cases hf : c.entries.find? (fun e => e.1 == k) with
  | none => rfl
  | some e =>
    obtain ⟨_, v, ins⟩ := e
    rw [hf] at h
    by_cases hlt : now - ins < c.ttl_ms
    · simp [hlt] at h
    · have : ¬ now' - ins < c.ttl_ms := by omega
      simp [this]

/-- C5: (1) on a cache hit `validate_token` returns the stored claims with
no downstream invocation and an unchanged cache; (2) on a miss with a
successful wrapped call it invokes the wrapped service once, inserts the
claims keyed by the token, and a second call within the TTL returns the
identical claims with no downstream invocation; (3) on a miss with a
failing wrapped call the error propagates, nothing is inserted, and a
second (still-missing) call invokes the wrapped service again. -/
theorem cached_token_validation_spec (inner : String → Except AuthError TokenData)
    (c : MokaCache) (token : String) (now : Nat) :
    (∀ d, c.get token now = some d →
      validate_token inner c token now = (.ok d, c, 0))
    ∧ (∀ d now', c.get token now = none → inner token = .ok d →
      validate_token inner c token now = (.ok d, c.insert token d now, 1)
      ∧ (now' - now < c.ttl_ms →
          validate_token inner (c.insert token d now) token now' =
            (.ok d, c.insert token d now, 0)))
    ∧ (∀ e now', c.get token now = none → inner token = .error e →
      validate_token inner c token now = (.error e, c, 1)
      ∧ (now ≤ now' →
          validate_token inner c token now' = (.error e, c, 1))) := by
  refine ⟨?_, ?_, ?_⟩
  · intro d hd
    unfold validate_token
    rw [hd]
  · intro d now' hmiss hok
    constructor
    · unfold validate_token
      rw [hmiss, hok]
    · intro httl
      have hget : (c.insert token d now).get token now' = some d := by
        unfold MokaCache.get MokaCache.insert
        simp only [List.find?]
        simp [httl]
      unfold validate_token
      rw [hget]
  · intro e now' hmiss herr
    constructor
    · unfold validate_token
      rw [hmiss, herr]
    · intro hle
      have hmiss' := MokaCache.get_none_mono c token now now' hmiss hle
      unfold validate_token
      rw [hmiss', herr]

/-- Witness for C5: an empty cache with a 60 s TTL, a wrapped service that
accepts exactly the token "valid": the first call invokes the wrapped
service and caches, the second (1 ms later) is served from the cache. -/
theorem cached_token_validation_spec_witness :
    validate_token
        (fun t => if t == "valid" then .ok ⟨0, "cached@example.com"⟩ else .error .invalidToken)
        (MokaCache.mk 60000 []) "valid" 100 =
      (.ok ⟨0, "cached@example.com"⟩,
        (MokaCache.mk 60000 []).insert "valid" ⟨0, "cached@example.com"⟩ 100, 1)
    ∧ validate_token
        (fun t => if t == "valid" then .ok ⟨0, "cached@example.com"⟩ else .error .invalidToken)
        ((MokaCache.mk 60000 []).insert "valid" ⟨0, "cached@example.com"⟩ 100) "valid" 101 =
      (.ok ⟨0, "cached@example.com"⟩,
        (MokaCache.mk 60000 []).insert "valid" ⟨0, "cached@example.com"⟩ 100, 0) := by
  have h := (cached_token_validation_spec
    (fun t => if t == "valid" then .ok ⟨0, "cached@example.com"⟩ else .error .invalidToken)
    (MokaCache.mk 60000 []) "valid" 100).2.1 ⟨0, "cached@example.com"⟩ 101
    (by rfl) (by rfl)
  exact ⟨h.1, h.2 (by decide)⟩

/-! ## Domain: email value object and user entity

From `services/auth-service/src/domain/user.rs`.  Rust string contents are
modelled at the character-list level (`value.data`): `str::trim`,
`str::to_lowercase`, `str::split('@')` and `str::contains` become the
corresponding list operations below (`to_lowercase` is modelled with
Lean's per-character `Char.toLower`). -/

/-- `str::trim`: drop whitespace from both ends. -/
def rustTrim (l : List Char) : List Char :=
  ((l.dropWhile Char.isWhitespace).reverse.dropWhile Char.isWhitespace).reverse

/-- `str::to_lowercase`, per character. -/
def rustToLowercase (l : List Char) : List Char :=
  l.map Char.toLower

/-- `str::split(c)`: split on every occurrence of `c`; always returns at
least one (possibly empty) part. -/
def splitChar (c : Char) : List Char → List (List Char)
  | [] => [[]]
  | x :: xs =>
    if x = c then [] :: splitChar c xs
    else
      match splitChar c xs with
      | [] => [[x]]
      | p :: ps => (x :: p) :: ps

/-- The `Email` value object: a wrapper around the validated, normalized
string. -/
structure Email where
  val : String
deriving DecidableEq

/-- `Email::new`: trim and lowercase the input, then reject when the
result is empty, has no `'@'`, does not split on `'@'` into exactly two
non-empty parts, or its domain part has no `'.'`; otherwise store the
normalized string. -/
def Email.new (value : String) : Except AuthError Email :=
  let trimmed := rustToLowercase (rustTrim value.data)
  if trimmed.isEmpty then .error .invalidEmail
  else if !trimmed.contains '@' then .error .invalidEmail
  else
    let parts := splitChar '@' trimmed
    if !(parts.length == 2) || (parts.getD 0 []).isEmpty || (parts.getD 1 []).isEmpty then
      .error .invalidEmail
    else if !(parts.getD 1 []).contains '.' then .error .invalidEmail
    else .ok ⟨String.mk trimmed⟩

/-- The `User` entity (`Uuid` and `DateTime<Utc>` fields modelled as
`Nat`). -/
structure User where
  id : Nat
  email : String
  hashed_password : String
  display_name : Option String
  is_active : Bool
  created_at : Nat
  updated_at : Nat
deriving DecidableEq

/-! ## Use cases: login and register

From `services/auth-service/src/application/commands/`.  The
`UserRepository`, `PasswordHasher` and `TokenService` trait objects are
explicit function arguments; `User::new` (whose id and timestamps come
from the environment: `Uuid::new_v4()`, `Utc::now()`) is abstracted as a
constructor argument `mk_user`. -/

/-- `LoginUserCommand`. -/
structure LoginUserCommand where
  email : String
  password : String
deriving DecidableEq

/-- `LoginUserResult`. -/
structure LoginUserResult where
  token : String
  user_id : Nat
  email : String
  display_name : Option String
deriving DecidableEq

/-- `LoginUserUseCase::execute`: find the user by email (mapping
`UserNotFound` to `InvalidCredentials`, passing other errors through),
reject an inactive account, verify the password (rejecting a mismatch
with `InvalidCredentials`), then mint a token. -/
def loginExecute
    (find_by_email : String → Except AuthError User)
    (verify : String → String → Except AuthError Bool)
    (create_token : User → Except AuthError String)
    (command : LoginUserCommand) : Except AuthError LoginUserResult :=
  match find_by_email command.email with
  | .error .userNotFound => .error .invalidCredentials
  | .error e => .error e
  | .ok user =>
    if !user.is_active then .error .accountInactive
    else
      match verify command.password user.hashed_password with
      | .error e => .error e
      | .ok is_valid =>
        if !is_valid then .error .invalidCredentials
        else
          match create_token user with
          | .error e => .error e
          | .ok token =>
            .ok { token := token, user_id := user.id, email := user.email,
                  display_name := user.display_name }

/-- C7: login performs its checks in order, each short-circuiting: a
not-found lookup maps to `InvalidCredentials` (for every hasher and token
service, i.e. without reaching them); an inactive account yields
`AccountInactive`; a failed password verification yields the same
`InvalidCredentials` as the not-found path; only then is a token minted.
-/
theorem login_check_order
    (find_by_email : String → Except AuthError User)
    (verify : String → String → Except AuthError Bool)
    (create_token : User → Except AuthError String)
    (cmd : LoginUserCommand) :
    (find_by_email cmd.email = .error .userNotFound →
      loginExecute find_by_email verify create_token cmd = .error .invalidCredentials)
    ∧ (∀ u, find_by_email cmd.email = .ok u → u.is_active = false →
      loginExecute find_by_email verify create_token cmd = .error .accountInactive)
    ∧ (∀ u, find_by_email cmd.email = .ok u → u.is_active = true →
      verify cmd.password u.hashed_password = .ok false →
      loginExecute find_by_email verify create_token cmd = .error .invalidCredentials)
    ∧ (∀ u tok, find_by_email cmd.email = .ok u → u.is_active = true →
      verify cmd.password u.hashed_password = .ok true →
      create_token u = .ok tok →
      loginExecute find_by_email verify create_token cmd =
        .ok { token := tok, user_id := u.id, email := u.email,
              display_name := u.display_name }) := by
  refine ⟨?_, ?_, ?_, ?_⟩
  · intro hfind
    unfold loginExecute
    rw [hfind]
  · intro u hfind hact
    unfold loginExecute
    rw [hfind]
    simp [hact]
  · intro u hfind hact hverify
    unfold loginExecute
    rw [hfind]
    simp [hact, hverify]
  · intro u tok hfind hact hverify hcreate
    unfold loginExecute
    rw [hfind]
    simp [hact, hverify, hcreate]

/-- Witness for C7: a repository with no users maps a login for an
unknown email to `InvalidCredentials`. -/
theorem login_check_order_witness :
    loginExecute (fun _ => .error .userNotFound)
      (fun _ _ => .ok true) (fun _ => .ok "tok")
      (LoginUserCommand.mk "ghost@example.com" "pw") = .error .invalidCredentials :=
  (login_check_order (fun _ => .error .userNotFound)
    (fun _ _ => .ok true) (fun _ => .ok "tok")
    (LoginUserCommand.mk "ghost@example.com" "pw")).1 rfl

/-- `RegisterUserCommand`. -/
structure RegisterUserCommand where
  email : String
  password : String
  display_name : Option String
deriving DecidableEq

/-- `RegisterUserResult`. -/
structure RegisterUserResult where
  user_id : Nat
  email : String
  display_name : Option String
deriving DecidableEq

/-- `RegisterUserUseCase::execute`: validate the email format, check the
email is not already registered, check the password byte length (`len()`
on a Rust `String` is its UTF-8 byte size), then hash, build the user
entity and persist it. -/
def registerExecute
    (exists_by_email : String → Except AuthError Bool)
    (hash : String → Except AuthError String)
    (mk_user : Email → String → Option String → User)
    (create : User → Except AuthError User)
    (command : RegisterUserCommand) : Except AuthError RegisterUserResult :=
  match Email.new command.email with
  | .error e => .error e
  | .ok email =>
    match exists_by_email email.val with
    | .error e => .error e
    | .ok true => .error .userAlreadyExists
    | .ok false =>
      if command.password.utf8ByteSize < 8 then .error .weakPassword
      else
        match hash command.password with
        | .error e => .error e
        | .ok hashed_password =>
          match create (mk_user email hashed_password command.display_name) with
          | .error e => .error e
          | .ok created_user =>
            .ok { user_id := created_user.id, email := created_user.email,
                  display_name := created_user.display_name }

/-- `Email::new` fails only with `InvalidEmail`. -/
theorem Email.new_error_eq (value : String) (e : AuthError)
    (h : Email.new value = .error e) : e = .invalidEmail := by
  simp only [Email.new] at h
  split at h
  · exact (Except.error.injEq .. ▸ h).symm
  · split at h
    · exact (Except.error.injEq .. ▸ h).symm
    · split at h
      · exact (Except.error.injEq .. ▸ h).symm
      · split at h
        · exact (Except.error.injEq .. ▸ h).symm
        · exact absurd h (by simp)

/-- C8: register performs its checks in order, each short-circuiting with
a distinct error before the password hasher or the repository's create is
reached (the conclusions hold for every `hash`, `mk_user` and `create`):
an invalid email yields `InvalidEmail`; an already-registered (normalized)
email yields `UserAlreadyExists` whatever the password; a password below 8
bytes yields `WeakPassword`. -/
theorem register_check_order
    (exists_by_email : String → Except AuthError Bool)
    (hash : String → Except AuthError String)
    (mk_user : Email → String → Option String → User)
    (create : User → Except AuthError User)
    (cmd : RegisterUserCommand) :
    (∀ e0, Email.new cmd.email = .error e0 →
      e0 = .invalidEmail
      ∧ registerExecute exists_by_email hash mk_user create cmd = .error .invalidEmail)
    ∧ (∀ em, Email.new cmd.email = .ok em → exists_by_email em.val = .ok true →
      registerExecute exists_by_email hash mk_user create cmd = .error .userAlreadyExists)
    ∧ (∀ em, Email.new cmd.email = .ok em → exists_by_email em.val = .ok false →
      cmd.password.utf8ByteSize < 8 →
      registerExecute exists_by_email hash mk_user create cmd = .error .weakPassword) := by
  refine ⟨?_, ?_, ?_⟩
  · intro e0 hem
    have he0 : e0 = .invalidEmail := Email.new_error_eq cmd.email e0 hem
    subst he0
    refine ⟨rfl, ?_⟩
    unfold registerExecute
    rw [hem]
  · intro em hem hex
    unfold registerExecute
    rw [hem]
    simp only []
    rw [hex]
  · intro em hem hex hweak
    unfold registerExecute
    rw [hem]
    simp only []
    rw [hex]
    simp [hweak]

/-- Witness for C8: registering `used@example.com`, already present in the
repository, is rejected with `UserAlreadyExists` even though the password
is weak — the email checks come first. -/
theorem register_check_order_witness :
    registerExecute (fun _ => .ok true) (fun p => .ok p)
      (fun em h dn => User.mk 0 em.val h dn true 0 0) (fun u => .ok u)
      (RegisterUserCommand.mk "used@example.com" "pw" none) = .error .userAlreadyExists :=
  (register_check_order (fun _ => .ok true) (fun p => .ok p)
    (fun em h dn => User.mk 0 em.val h dn true 0 0) (fun u => .ok u)
    (RegisterUserCommand.mk "used@example.com" "pw" none)).2.1
    (Email.mk "used@example.com") rfl rfl

/-- C9: for a syntactically valid, not-already-registered email, and
collaborators that succeed, register rejects with `WeakPassword` exactly
when the password is shorter than 8 bytes; no other strength criterion is
applied (8 bytes or more always proceeds to the hasher and repository).
-/
theorem register_weak_password_iff
    (exists_by_email : String → Except AuthError Bool)
    (hash : String → Except AuthError String)
    (mk_user : Email → String → Option String → User)
    (create : User → Except AuthError User)
    (cmd : RegisterUserCommand) (em : Email) (hp : String) (created : User)
    (hem : Email.new cmd.email = .ok em)
    (hex : exists_by_email em.val = .ok false)
    (hh : hash cmd.password = .ok hp)
    (hc : create (mk_user em hp cmd.display_name) = .ok created) :
    registerExecute exists_by_email hash mk_user create cmd = .error .weakPassword
      ↔ cmd.password.utf8ByteSize < 8 := by
  constructor
  · intro hres
    by_contra hlen
    unfold registerExecute at hres
    simp only [hem, hex, if_neg hlen, hh, hc] at hres
    exact Except.noConfusion hres
  · intro hlen
    unfold registerExecute
    simp only [hem, hex, if_pos hlen]

/-- Witness for C9: with a fresh repository and plain fakes, password
"short" (5 bytes) is rejected as weak. -/
theorem register_weak_password_iff_witness :
    registerExecute (fun _ => .ok false) (fun p => .ok p)
      (fun em h dn => User.mk 0 em.val h dn true 0 0) (fun u => .ok u)
      (RegisterUserCommand.mk "new@example.com" "short" none) = .error .weakPassword :=
  (register_weak_password_iff (fun _ => .ok false) (fun p => .ok p)
    (fun em h dn => User.mk 0 em.val h dn true 0 0) (fun u => .ok u)
    (RegisterUserCommand.mk "new@example.com" "short" none)
    (Email.mk "new@example.com") "short"
    (User.mk 0 "new@example.com" "short" none true 0 0)
    rfl rfl rfl rfl).mpr (by decide)

/-! ## Characterization of `Email::new` (C10) -/

/-- `splitChar` always yields at least one part. -/
theorem splitChar_ne_nil (c : Char) (l : List Char) : splitChar c l ≠ [] := by
  induction l with
  | nil => simp [splitChar]
  | cons x xs ih =>
    by_cases hx : x = c
    · simp [splitChar, hx]
    · rw [splitChar, if_neg hx]
      cases hsp : splitChar c xs with
      | nil => exact absurd hsp ih
      | cons p ps => simp

/-- Splitting a list without the separator yields that one part. -/
theorem splitChar_not_mem (c : Char) (l : List Char) (h : c ∉ l) :
    splitChar c l = [l] := by
  induction l with
  | nil => rfl
  | cons x xs ih =>
    have hx : ¬ x = c := fun e => h (e ▸ List.mem_cons_self x xs)
    rw [splitChar, if_neg hx, ih (fun hm => h (List.mem_cons_of_mem x hm))]

/-- If `splitChar` yields one part, the separator was absent and the part
is the whole list. -/
theorem splitChar_eq_single (c : Char) (l m : List Char)
    (h : splitChar c l = [m]) : l = m ∧ c ∉ m := by
  induction l generalizing m with
  | nil =>
    rw [splitChar] at h
    injection h with hA hB
    exact ⟨hA, by rw [← hA]; simp⟩
  | cons x xs ih =>
    by_cases hx : x = c
    · rw [splitChar, if_pos hx] at h
      injection h with hA hB
      exact absurd hB (splitChar_ne_nil c xs)
    · rw [splitChar, if_neg hx] at h
      cases hsp : splitChar c xs with
      | nil => exact absurd hsp (splitChar_ne_nil c xs)
      | cons p ps =>
        rw [hsp] at h
        injection h with hA hB
        subst hB
        obtain ⟨rfl, hcp⟩ := ih p hsp
        refine ⟨hA, ?_⟩
        rw [← hA]
        simp only [List.mem_cons, not_or]
        exact ⟨fun e => hx e.symm, hcp⟩

/-- If `splitChar` yields exactly two parts, the list is the first part,
the separator and the second part, with the separator in neither part. -/
theorem splitChar_eq_pair (c : Char) (l a b : List Char)
    (h : splitChar c l = [a, b]) : l = a ++ c :: b ∧ c ∉ a ∧ c ∉ b := by
  induction l generalizing a with
  | nil =>
    rw [splitChar] at h
    injection h with hA hB
    exact List.noConfusion hB
  | cons x xs ih =>
    by_cases hx : x = c
    · rw [splitChar, if_pos hx] at h
      injection h with hA hB
      subst hA
      obtain ⟨rfl, hcb⟩ := splitChar_eq_single c xs b hB
      subst hx
      exact ⟨rfl, by simp, hcb⟩
    · rw [splitChar, if_neg hx] at h
      cases hsp : splitChar c xs with
      | nil => exact absurd hsp (splitChar_ne_nil c xs)
      | cons p ps =>
        rw [hsp] at h
        injection h with hA hB
        rw [hB] at hsp
        obtain ⟨rfl, hcp, hcb⟩ := ih p hsp
        refine ⟨by rw [← hA]; simp, ?_, hcb⟩
        rw [← hA]
        simp only [List.mem_cons, not_or]
        exact ⟨fun e => hx e.symm, hcp⟩

/-- Splitting `a ++ c :: b` with the separator in neither part yields
exactly `[a, b]`. -/
theorem splitChar_append (c : Char) (a b : List Char)
    (ha : c ∉ a) (hb : c ∉ b) : splitChar c (a ++ c :: b) = [a, b] := by
  induction a with
  | nil =>
    rw [List.nil_append, splitChar, if_pos rfl, splitChar_not_mem c b hb]
  | cons y a' ih =>
    have hy : ¬ y = c := fun e => ha (e ▸ List.mem_cons_self y a')
    rw [List.cons_append, splitChar, if_neg hy,
      ih (fun hm => ha (List.mem_cons_of_mem y hm))]

/-- C10: `Email::new` succeeds exactly when the trimmed, lowercased input
is non-empty and consists of a non-empty local part, one `'@'`, and a
non-empty domain part free of further `'@'`s and containing a `'.'`; on
success the stored email is exactly that normalized lowercase string. -/
theorem email_new_spec (value : String) :
    ((∃ em, Email.new value = .ok em) ↔
      (rustToLowercase (rustTrim value.data) ≠ []
        ∧ ∃ l d, rustToLowercase (rustTrim value.data) = l ++ '@' :: d
            ∧ '@' ∉ l ∧ '@' ∉ d ∧ l ≠ [] ∧ d ≠ [] ∧ '.' ∈ d))
    ∧ (∀ em, Email.new value = .ok em →
        em.val = String.mk (rustToLowercase (rustTrim value.data))) := by
  simp only [Email.new]
  generalize rustToLowercase (rustTrim value.data) = n
  constructor
  · by_cases h1 : n.isEmpty
    · rw [if_pos h1]
      have hn : n = [] := by simpa using h1
      simp [hn]
    · rw [if_neg h1]
      have hn : n ≠ [] := by simpa using h1
      by_cases h2 : n.contains '@' = true
      · rw [if_neg (by rw [h2]; decide)]
        cases hsp : splitChar '@' n with
        | nil => exact absurd hsp (splitChar_ne_nil '@' n)
        | cons p0 rest =>
          cases rest with
          | nil =>
            rw [if_pos (by simp)]
            constructor
            · intro ⟨em, hem⟩
              exact absurd hem (by simp)
            · rintro ⟨-, l, d, hdec, hal, had, -, -, -⟩
              have hpair := splitChar_append '@' l d hal had
              rw [← hdec, hsp] at hpair
              exact absurd hpair (by simp)
          | cons p1 rest2 =>
            cases rest2 with
            | nil =>
              by_cases h3 : p0.isEmpty = true ∨ p1.isEmpty = true
              · rw [if_pos (by rcases h3 with h | h <;> simp [h])]
                constructor
                · intro ⟨em, hem⟩
                  exact absurd hem (by simp)
                · rintro ⟨-, l, d, hdec, hal, had, hl, hd, -⟩
                  have hpair := splitChar_append '@' l d hal had
                  rw [← hdec, hsp] at hpair
                  injection hpair with hA hB
                  injection hB with hB hC
                  subst hA
                  subst hB
                  rcases h3 with h | h
                  · exact (hl (by simpa using h)).elim
                  · exact (hd (by simpa using h)).elim
              · push_neg at h3
                obtain ⟨h0, h1'⟩ := h3
                have h0' : p0.isEmpty = false := by
                  cases he : p0.isEmpty
                  · rfl
                  · exact absurd he h0
                have h1'' : p1.isEmpty = false := by
                  cases he : p1.isEmpty
                  · rfl
                  · exact absurd he h1'
                have hm0 : p0 ≠ [] := by simpa using h0'
                have hm1 : p1 ≠ [] := by simpa using h1''
                rw [if_neg (by simp [hm0, hm1])]
                by_cases h4 : p1.contains '.' = true
                · have h4m : '.' ∈ p1 := by simpa using h4
                  rw [if_neg (by simp [h4m])]
                  obtain ⟨hn', ha0, ha1⟩ := splitChar_eq_pair '@' n p0 p1 hsp
                  constructor
                  · rintro -
                    exact ⟨hn, p0, p1, hn', ha0, ha1, hm0, hm1, h4m⟩
                  · rintro -
                    exact ⟨⟨String.mk n⟩, rfl⟩
                · have h4m : '.' ∉ p1 := by simpa using h4
                  rw [if_pos (by simp [h4m])]
                  constructor
                  · intro ⟨em, hem⟩
                    exact absurd hem (by simp)
                  · rintro ⟨-, l, d, hdec, hal, had, -, -, hdot⟩
                    have hpair := splitChar_append '@' l d hal had
                    rw [← hdec, hsp] at hpair
                    injection hpair with hA hB
                    injection hB with hB hC
                    subst hA
                    subst hB
                    exact (h4 (by simpa using hdot)).elim
            | cons p2 rest3 =>
              rw [if_pos (by simp)]
              constructor
              · intro ⟨em, hem⟩
                exact absurd hem (by simp)
              · rintro ⟨-, l, d, hdec, hal, had, -, -, -⟩
                have hpair := splitChar_append '@' l d hal had
                rw [← hdec, hsp] at hpair
                injection hpair with hA hB
                injection hB with hB hC
                exact List.noConfusion hC
      · have h2' : n.contains '@' = false := by
          cases he : n.contains '@'
          · rfl
          · exact absurd he h2
        rw [if_pos (by rw [h2']; decide)]
        constructor
        · intro ⟨em, hem⟩
          exact absurd hem (by simp)
        · rintro ⟨-, l, d, hdec, -, -, -, -, -⟩
          have hmem : '@' ∈ n := by
            rw [hdec]
            exact List.mem_append_right l (List.mem_cons_self '@' d)
          have : n.contains '@' = true := by simpa using hmem
          exact (h2 this).elim
  · intro em hem
    split at hem
    · exact absurd hem (by simp)
    · split at hem
      · exact absurd hem (by simp)
      · split at hem
        · exact absurd hem (by simp)
        · split at hem
          · exact absurd hem (by simp)
          · obtain rfl : (⟨String.mk n⟩ : Email) = em := by simpa using hem
            rfl

/-- Witness for C10: the padded, mixed-case input
`"  USER@Example.COM  "` is accepted and stored as
`"user@example.com"`. -/
theorem email_new_spec_witness :
    Email.new "  USER@Example.COM  " = .ok ⟨"user@example.com"⟩
    ∧ (Email.new "  USER@Example.COM  " = .ok ⟨"user@example.com"⟩ →
        (Email.mk "user@example.com").val =
          String.mk (rustToLowercase (rustTrim "  USER@Example.COM  ".data))) :=
  ⟨rfl, (email_new_spec "  USER@Example.COM  ").2 ⟨"user@example.com"⟩⟩

end TicketingSystem
